import Mathlib

/-!
Verification development for the `iotdev` repository.

Two programs are embedded:

* `Archiver` models `archiver.py` — the Ingestion Bridge: the MQTT
  `on_message` callback that timestamps and tags inbound payloads and pushes
  them onto the hand-off queue (`userdata.queue.insert(0, tdata)`), and the
  drain loop in `couchdb_client` (`mqtt_iface.queue.pop()`).

* `DSArchiver` models `dsarchiver.py` — the Consolidation Engine:
  `get_first_doc`, `get_measures_slot`, `accuracy`, `process_series` and
  `archive_series`.

Machine reals of the Python source are modelled as exact rationals (`ℚ`);
timestamps are seconds encoded as `Int`; Python exceptions are modelled by
`Option`/`Except` results; CouchDB calls are modelled by explicit store
values and a failure-behavior record.
-/

namespace Archiver

/-- `userdata.queue.insert(0, tdata)` — enqueue inserts at position 0. -/
def enqueue (q : List α) (x : α) : List α := x :: q

/-- Enqueue a sequence of items E1..En, in order, onto an empty queue. -/
def enqueueAll (es : List α) : List α := es.foldl enqueue []

/-- `list.pop()` — Python pops the LAST element (raises on an empty list,
modelled by `none`). -/
def pyPop : List α → Option (α × List α)
  | [] => none
  | x :: xs =>
    match pyPop xs with
    | none => some (x, [])
    | some (y, rest) => some (y, x :: rest)

/-- Repeatedly pop until the queue is empty, collecting the drained items in
drain order.  The fuel argument bounds the recursion by the queue length. -/
def drainAllFuel : Nat → List α → List α
  | 0, _ => []
  | Nat.succ n, q =>
    match pyPop q with
    | none => []
    | some (x, rest) => x :: drainAllFuel n rest

/-- Drain the whole queue in the order the drain loop of `couchdb_client`
would see the items. -/
def drainAll (q : List α) : List α := drainAllFuel q.length q

/-! ### `on_message` — timestamping and tagging (C9)

Strings of the Python source are modelled as `List Char`.  The local time
`datetime.datetime.now().isoformat()` is `base ++ '.' :: fracDigits` when
the microsecond field is nonzero (`base` is the 19-character
`YYYY-MM-DDTHH:MM:SS` part, which never contains a dot) and plain `base`
when the microsecond field is exactly zero — CPython omits the fractional
part entirely in that case. -/

/-- `str.rfind(c)` — index of the last occurrence, `-1` when absent. -/
def pyRfind : List Char → Char → Int
  | [], _ => -1
  | x :: xs, c =>
    let r := pyRfind xs c
    if 0 ≤ r then r + 1
    else if x = c then 0 else -1

/-- `s[:k]` — Python slice-to with possibly negative index: a negative `k`
counts from the end (clamped at 0). -/
def pySliceTo (s : List Char) (k : Int) : List Char :=
  if 0 ≤ k then s.take k.toNat else s.take (s.length - (-k).toNat)

/-- `datetime.now().isoformat()`: the fractional part (with its dot) is
present exactly when the microsecond digits are nonempty. -/
def isoNow (base fracDigits : List Char) : List Char :=
  if fracDigits = [] then base else base ++ '.' :: fracDigits

/-- Lines 247-249 of `archiver.py`:
`now = datetime.datetime.now().isoformat(); dot = now.rfind("."); data['timestamp'] = now[:dot]`. -/
def stampNow (nowIso : List Char) : List Char :=
  pySliceTo nowIso (pyRfind nowIso '.')

/-- The only payload field `on_message` inspects is the optional
`timestamp`. -/
structure MsgData where
  timestamp : Option (List Char)

/-- The tagged record pushed (as part of `(msg.topic, data)`) onto the
hand-off queue by `on_message`. -/
structure QEntry where
  timestamp : List Char
  id : List Char
  topic : List Char
deriving DecidableEq

/-- `on_message` (archiver.py lines 240-256): stamp a missing timestamp
from the current local time, then set `_id = topic + "@" + timestamp` and
`topic`; the result is enqueued with `queue.insert(0, ...)`. -/
def on_message (topic : List Char) (data : MsgData) (nowIso : List Char) : QEntry :=
  let ts :=
    match data.timestamp with
    | some t => t
    | none => stampNow nowIso
  { timestamp := ts, id := topic ++ '@' :: ts, topic := topic }

end Archiver

namespace DSArchiver

/-! ### Data model

A hot-store row as returned by the `sequences/by_topic_no_reduce` view for
one topic: `row['id']`, `row['value']` (the measured value), and the
embedded document's `dev`, `type` and `timestamp` fields.  Timestamps are
seconds encoded as `Int` (ISO-8601 strings at second precision compare
lexicographically exactly as their instants compare). -/

structure Row where
  id : String
  value : ℚ
  dev : String
  mtype : String
  timestamp : Int
deriving DecidableEq

/-- One accuracy band `{range_inf, range_sup, value}` of a device profile. -/
structure Band where
  range_inf : ℚ
  range_sup : ℚ
  value : ℚ
deriving DecidableEq

/-- A device document: per measure type, the `accuracy` band list
(`device[value_type]['accuracy']`). -/
abbrev Device := List (String × List Band)

/-- `device[value_type]` lookup; a missing key raises in Python (caught by
the caller), modelled by `none`. -/
def lookupType : Device → String → Option (List Band)
  | [], _ => none
  | (k, v) :: rest, t => if k = t then some v else lookupType rest t

/-- The band-scanning loop of `accuracy` (dsarchiver.py lines 245-252):
`accuracy_value` starts at `0.0` and the loop breaks at the first band with
`range_inf <= reading < range_sup`. -/
def accLoop : List Band → ℚ → ℚ
  | [], _ => 0
  | b :: rest, reading =>
    if b.range_inf ≤ reading ∧ reading < b.range_sup then b.value
    else accLoop rest reading

/-- `accuracy` (dsarchiver.py lines 230-252): `0.0` for an unknown device
(`None`), `0.0` when the device has no accuracy table for the measure type,
otherwise the first matching band's `value` (and `0.0` when no band
matches). -/
def accuracy (device : Option Device) (value_type : String) (reading : ℚ) : ℚ :=
  match device with
  | none => 0
  | some dev =>
    match lookupType dev value_type with
    | none => 0
    | some accuracies => accLoop accuracies reading

/-! ### Window selection -/

/-- `min(...)` over Int — Python `min` raises `ValueError` on an empty
sequence, modelled by `none`. -/
def pymin : List Int → Option Int
  | [] => none
  | t :: ts => some (ts.foldl min t)

/-- `max(...)` over Int, `none` on empty. -/
def pymax : List Int → Option Int
  | [] => none
  | t :: ts => some (ts.foldl max t)

/-- `get_first_doc` (dsarchiver.py lines 136-165): the first row of the
timestamp-sorted view for the topic, i.e. the earliest sample timestamp;
`None` when the topic has no rows. -/
def get_first_doc (hot : List Row) : Option Int :=
  pymin (hot.map fun r => r.timestamp)

/-- The slot computed by `get_measures_slot`: the query's
`startkey`/`endkey` bounds and the rows the view returns for the closed
interval. -/
structure Slot where
  start : Int
  stop : Int
  rows : List Row
deriving DecidableEq

/-- `get_measures_slot` (dsarchiver.py lines 168-212), for one topic's hot
rows, with the window duration `timespan` in minutes
(`datetime.timedelta(minutes=timespan)` = `60 * timespan` seconds):

* when `get_first_doc` returns `None`, line 180 evaluates
  `None + datetime.timedelta(...)` which raises an uncaught `TypeError`
  (`Except.error`);
* when `end_timestamp >= now` the function returns `None` — not ready;
* otherwise it queries `startkey=[topic, start]`, `endkey=[topic, end]`
  (a closed interval) and returns the rows. -/
def get_measures_slot (hot : List Row) (timespan now : Int) :
    Except Unit (Option Slot) :=
  match get_first_doc hot with
  | none => .error ()
  | some start_timestamp =>
    let end_timestamp := start_timestamp + 60 * timespan
    if end_timestamp ≥ now then .ok none
    else .ok (some ⟨start_timestamp, end_timestamp,
      hot.filter fun r =>
        start_timestamp ≤ r.timestamp ∧ r.timestamp ≤ end_timestamp⟩)

/-! ### Aggregation (`process_series`)

`uncertainties.ufloat` values are carried exactly as pairs
`(nominal value, variance)`: `ufloat v a = (v, a²)`, the sum of independent
ufloats adds nominals and variances, and division by a scalar `k` divides
the nominal by `k` and the variance by `k²`.  The Python record stores
`accuracy = uaverage.std_dev = sqrt(variance)`; the embedded record stores
the exact variance in `accuracy_var`, so the stored accuracy is
`Real.sqrt accuracy_var`. -/

/-- `uncertainties.ufloat value acc` as `(nominal, variance)`. -/
def ufloat (v a : ℚ) : ℚ × ℚ := (v, a ^ 2)

/-- Addition of independent ufloats. -/
def uadd (x y : ℚ × ℚ) : ℚ × ℚ := (x.1 + y.1, x.2 + y.2)

/-- Python `sum` over a list of ufloats (starting from 0). -/
def usum (l : List (ℚ × ℚ)) : ℚ × ℚ := l.foldl uadd (0, 0)

/-- Division of a ufloat by an exact scalar. -/
def udiv (u : ℚ × ℚ) (k : ℚ) : ℚ × ℚ := (u.1 / k, u.2 / k ^ 2)

/-- `statistics.mean` — raises `StatisticsError` on an empty list. -/
def pymean (l : List ℚ) : Option ℚ :=
  match l with
  | [] => none
  | _ => some (l.sum / (l.length : ℚ))

/-- The square of `statistics.stdev` (the Bessel-corrected sample
variance); `statistics.stdev` raises `StatisticsError` unless `n ≥ 2`.
Only its definedness matters to the control flow: `process_series` merely
logs the standard deviation. -/
def pystdev_var (l : List ℚ) : Option ℚ :=
  if l.length < 2 then none
  else
    some (((l.map fun x => (x - l.sum / (l.length : ℚ)) ^ 2).sum)
      / ((l.length : ℚ) - 1))

/-- The update test of the running minimum: `value < min_value`
(strict, so a later sample equal to the current minimum does not replace
it). -/
def minUpd (v m : ℚ) : Bool := decide (v < m)

/-- The update test of the running maximum: `value > max_value`
(strict). -/
def maxUpd (v m : ℚ) : Bool := decide (m < v)

/-- The running-extreme loop of `process_series`, after the accumulator has
been seeded: `upd r.value acc.1 = true` replaces the accumulator with
`(r.value, r.timestamp)` (`minUpd` for the minimum, `maxUpd` for the
maximum). -/
def extFold (upd : ℚ → ℚ → Bool) : ℚ × Int → List Row → ℚ × Int
  | acc, [] => acc
  | acc, r :: rest =>
    extFold upd (if upd r.value acc.1 then (r.value, r.timestamp) else acc) rest

/-- The same loop including the `None` seeding of the first iteration
(`min_value`/`max_value` start as `None` in the Python source). -/
def extFoldOpt (upd : ℚ → ℚ → Bool) :
    Option (ℚ × Int) → List Row → Option (ℚ × Int)
  | acc, [] => acc
  | none, r :: rest => extFoldOpt upd (some (r.value, r.timestamp)) rest
  | some acc, r :: rest =>
    extFoldOpt upd
      (some (if upd r.value acc.1 then (r.value, r.timestamp) else acc)) rest

/-- `min_value`/`max_value` sub-record of the consolidated measure. -/
structure Extreme where
  value : ℚ
  timestamp : Int
deriving DecidableEq

/-- `time_slot` sub-record (`{'start': first, 'end': last}`). -/
structure TimeSlot where
  start : Int
  stop : Int
deriving DecidableEq

/-- The consolidated record `meas` built by `process_series`
(dsarchiver.py lines 335-355).  The Python dict stores
`accuracy = sqrt(accuracy_var)`; no field holds the raw sample standard
deviation of `statistics.stdev`, which is only logged. -/
structure Meas where
  topic : String
  measure_type : String
  value_type : String
  timestamp : Int
  value : ℚ
  accuracy_var : ℚ
  min_value : Extreme
  max_value : Extreme
  time_slot : TimeSlot
  id : String
deriving DecidableEq

/-- `process_series` (dsarchiver.py lines 256-355).  The devices cache
`devices[device]` is transparent over the pure device store `devDb`, so
each sample's accuracy is `accuracy (devDb r.dev) measure_type r.value`.
Failure paths (`none`): `min(timestamps)`/`statistics.mean` raise on an
empty slot, and `statistics.stdev` raises when the slot holds fewer than
two samples.  The record timestamp is the midpoint
`first + (last - first)/2`, truncated to seconds exactly as
`isoformat(timespec='seconds')` truncates the half-second. -/
def process_series (devDb : String → Option Device) (topic : String)
    (data : List Row) : Option Meas := do
  let minpair ← extFoldOpt minUpd none data
  let maxpair ← extFoldOpt maxUpd none data
  let r0 ← data.head?
  let measure_type := r0.mtype
  let first_timestamp ← pymin (data.map fun r => r.timestamp)
  let last_timestamp ← pymax (data.map fun r => r.timestamp)
  let values := data.map fun r => r.value
  let _mean_value ← pymean values
  let _stddev_value ← pystdev_var values
  let uvalues := data.map fun r =>
    ufloat r.value (accuracy (devDb r.dev) measure_type r.value)
  let uaverage := udiv (usum uvalues) (uvalues.length : ℚ)
  let avg_timestamp := first_timestamp + (last_timestamp - first_timestamp) / 2
  some { topic := topic
         measure_type := measure_type
         value_type := "average"
         timestamp := avg_timestamp
         value := uaverage.1
         accuracy_var := uaverage.2
         min_value := ⟨minpair.1, minpair.2⟩
         max_value := ⟨maxpair.1, maxpair.2⟩
         time_slot := ⟨first_timestamp, last_timestamp⟩
         id := topic ++ "@" ++ toString avg_timestamp }

/-! ### Migration (`archive_series`) -/

/-- External-store failure behavior for one `archive_series` call:
whether the cold-store `insert` raises, and for which sample ids the
hot-store `get`/`remove` pair raises. -/
structure StoreBehavior where
  insertFails : Bool
  removeFails : String → Bool

/-- The deletion loop of `archive_series` (dsarchiver.py lines 380-384).
There is no per-id exception handling: the first failing `get`/`remove`
raises out of the loop.  Returns the ids actually deleted and whether the
loop ran to completion. -/
def deleteLoop (beh : StoreBehavior) : List Row → List String × Bool
  | [] => ([], true)
  | r :: rest =>
    if beh.removeFails r.id then ([], false)
    else
      let (ds, ok) := deleteLoop beh rest
      (r.id :: ds, ok)

/-- Observable outcome of one `archive_series` call: `returnedFalse` when
the slot was `None` ("No data to move"); `returnedTrue inserted deleted`
when the function returned `True`, recording whether the cold-store insert
succeeded and which hot-store ids were deleted; `raised inserted deleted`
when an exception escaped `archive_series`. -/
inductive ArchiveResult where
  | returnedFalse : ArchiveResult
  | returnedTrue : Bool → List String → ArchiveResult
  | raised : Bool → List String → ArchiveResult
deriving DecidableEq

/-- `archive_series` (dsarchiver.py lines 359-385):

* a `TypeError` from `get_measures_slot` (empty store) escapes — there is
  no handler in `archive_series`;
* a `None` slot returns `False`;
* an exception from `process_series` (e.g. `StatisticsError` on a
  single-sample slot) escapes;
* the cold-store insert (line 374) is wrapped in `try/except` that only
  LOGS a failure — execution falls through to the deletion loop either way;
* the deletion loop has no handler, so a failing delete escapes mid-loop. -/
def archive_series (hot : List Row) (devDb : String → Option Device)
    (topic : String) (timespan now : Int) (beh : StoreBehavior) :
    ArchiveResult :=
  match get_measures_slot hot timespan now with
  | .error _ => .raised false []
  | .ok none => .returnedFalse
  | .ok (some slot) =>
    match process_series devDb topic slot.rows with
    | none => .raised false []
    | some _meas =>
      let inserted := !beh.insertFails
      match deleteLoop beh slot.rows with
      | (ds, true) => .returnedTrue inserted ds
      | (ds, false) => .raised inserted ds

/-! ### Concrete instances used by the theorems below -/

/-- Sample with id `"a"`, value 0, at t = 0. -/
def row0 : Row := ⟨"a", 0, "d", "temp", 0⟩

/-- Sample with id `"b"`, value 1, at t = 60. -/
def row1 : Row := ⟨"b", 1, "d", "temp", 60⟩

/-- A device store that knows no device (every lookup yields `None`). -/
def devDb0 : String → Option Device := fun _ => none

/-- The spec's example device: bands `[0,10) -> 0.1` and `[10,20) -> 0.2`
for measure type `"temperature"`. -/
def exampleDevice : Device :=
  [("temperature", [⟨0, 10, 1/10⟩, ⟨10, 20, 2/10⟩])]

/-- All external store operations succeed. -/
def behOk : StoreBehavior := ⟨false, fun _ => false⟩

/-- The cold-store insert raises; every hot-store delete succeeds. -/
def behInsertFail : StoreBehavior := ⟨true, fun _ => false⟩

/-- The hot-store `get`/`remove` pair raises for id `"a"` (the first
sample of the window); everything else succeeds. -/
def behRemoveFailA : StoreBehavior := ⟨false, fun i => i == "a"⟩

/-- The record `process_series devDb0 "t" [row0, row1]` computes:
value `(0+1)/2 = 1/2`, propagated variance `0` (unknown device, accuracy
`0.0`), midpoint timestamp `0 + (60-0)/2 = 30`, id `"t@30"`. -/
def exMeas : Meas :=
  { topic := "t", measure_type := "temp", value_type := "average"
    timestamp := 30, value := 1/2, accuracy_var := 0
    min_value := ⟨0, 0⟩, max_value := ⟨1, 60⟩
    time_slot := ⟨0, 60⟩, id := "t@30" }

end DSArchiver

namespace Archiver

/-! ## Theorems about the Ingestion Bridge -/

lemma foldl_enqueue_eq (es : List α) :
    ∀ acc : List α, es.foldl enqueue acc = es.reverse ++ acc := by
  induction es with
  | nil => intro acc; simp [List.foldl]
  | cons x xs ih =>
    intro acc
    simp only [List.foldl, enqueue, ih, List.reverse_cons, List.append_assoc,
      List.cons_append, List.nil_append]

lemma enqueueAll_eq_reverse (es : List α) : enqueueAll es = es.reverse := by
  simp [enqueueAll, foldl_enqueue_eq]

lemma pyPop_concat (xs : List α) (y : α) : pyPop (xs ++ [y]) = some (y, xs) := by
  induction xs with
  | nil => rfl
  | cons x xs ih => simp [pyPop, ih]

lemma drainAllFuel_eq_reverse (n : Nat) :
    ∀ q : List α, q.length ≤ n → drainAllFuel n q = q.reverse := by
  induction n with
  | zero =>
    intro q hq
    have : q = [] := List.eq_nil_of_length_eq_zero (Nat.le_zero.mp hq)
    simp [this, drainAllFuel]
  | succ n ih =>
    intro q hq
    rcases List.eq_nil_or_concat q with rfl | ⟨ys, y, rfl⟩
    · simp [drainAllFuel, pyPop]
    · have hlen : ys.length ≤ n := by
        have := hq
        simp [List.length_append] at this
        omega
      simp [drainAllFuel, pyPop_concat, ih ys hlen]

lemma drainAll_eq_reverse (q : List α) : drainAll q = q.reverse :=
  drainAllFuel_eq_reverse q.length q (Nat.le_refl _)

/-- **C4.** FIFO hand-off: for every sequence of enqueue operations E1..En
(`queue.insert(0, tdata)` in `on_message`) followed by drains
(`queue.pop()` in `couchdb_client`), the items are drained in exactly the
order E1..En: the earliest-enqueued item is the first drained. -/
theorem C4_queue_fifo (es : List α) : drainAll (enqueueAll es) = es := by
  rw [enqueueAll_eq_reverse, drainAll_eq_reverse, List.reverse_reverse]

/-- **C9 (failing-input evaluation).**  An inbound payload with no
`timestamp` field, arriving when the local clock reads an exact second
(microsecond = 0, so `isoformat` emits no fractional part): `rfind(".")`
returns `-1` and `now[:-1]` chops the final seconds digit, so the record is
stamped `2020-12-06T10:30:4` instead of the second-precision
`2020-12-06T10:30:45`.  The `topic` and derived `_id` fields are set as
claimed, but the `_id` embeds the corrupted timestamp. -/
theorem C9_stamp_truncation_bug :
    (on_message ("temp/room1".data) ⟨none⟩
        (isoNow ("2020-12-06T10:30:45".data) [])).timestamp
      = "2020-12-06T10:30:4".data ∧
    (on_message ("temp/room1".data) ⟨none⟩
        (isoNow ("2020-12-06T10:30:45".data) [])).id
      = "temp/room1@2020-12-06T10:30:4".data ∧
    (on_message ("temp/room1".data) ⟨none⟩
        (isoNow ("2020-12-06T10:30:45".data) [])).topic
      = "temp/room1".data := by
  refine ⟨?_, ?_, ?_⟩ <;> decide

end Archiver

namespace DSArchiver

/-! ## Theorems about the Consolidation Engine -/

/-- **C10.**  For a topic with no samples in the hot store,
`get_first_doc` returns `None`, and `get_measures_slot` does not produce
the handled "not ready" outcome (`.ok none`): line 180's
`None + datetime.timedelta(...)` raises an uncaught `TypeError` that also
escapes `archive_series`. -/
theorem C10_empty_store_type_error (devDb : String → Option Device)
    (topic : String) (timespan now : Int) (beh : StoreBehavior) :
    get_first_doc ([] : List Row) = none ∧
    get_measures_slot ([] : List Row) timespan now = .error () ∧
    archive_series [] devDb topic timespan now beh = .raised false [] :=
  ⟨rfl, rfl, rfl⟩

lemma get_measures_slot_eq (hot : List Row) (timespan now start : Int)
    (h : get_first_doc hot = some start) :
    get_measures_slot hot timespan now =
      if start + 60 * timespan ≥ now then .ok none
      else .ok (some ⟨start, start + 60 * timespan,
        hot.filter fun r =>
          start ≤ r.timestamp ∧ r.timestamp ≤ start + 60 * timespan⟩) := by
  unfold get_measures_slot
  rw [h]

/-- **C5.**  Window readiness: given an earliest hot-store sample at
`start` for the topic, `get_measures_slot` returns "not ready" (`None`)
whenever `start + D ≥ now` (the duration `D` being `timespan` minutes,
i.e. `60 * timespan` seconds), and otherwise returns the closed interval
`[start, start + D]` — so `stop - start = D` — together with exactly the
rows whose timestamps lie in it. -/
theorem C5_window_readiness (hot : List Row) (timespan now start : Int)
    (h : get_first_doc hot = some start) :
    (start + 60 * timespan ≥ now →
      get_measures_slot hot timespan now = .ok none) ∧
    (start + 60 * timespan < now →
      ∃ s : Slot, get_measures_slot hot timespan now = .ok (some s) ∧
        s.start = start ∧ s.stop - s.start = 60 * timespan ∧
        s.rows = hot.filter fun r =>
          s.start ≤ r.timestamp ∧ r.timestamp ≤ s.stop) := by
  constructor
  · intro hge
    rw [get_measures_slot_eq hot timespan now start h, if_pos hge]
  · intro hlt
    rw [get_measures_slot_eq hot timespan now start h, if_neg (by omega)]
    exact ⟨_, rfl, rfl, by ring, rfl⟩

/-- **C5 witness.**  The hot store `[row0]` has earliest timestamp 0; with
a 10-minute window, `now = 500` (≤ 600) is not ready and `now = 700`
yields the interval `[0, 600]`. -/
theorem C5_window_readiness_witness :
    ((0 : Int) + 60 * 10 ≥ 500 →
      get_measures_slot [row0] 10 500 = .ok none) ∧
    ((0 : Int) + 60 * 10 < 500 →
      ∃ s : Slot, get_measures_slot [row0] 10 500 = .ok (some s) ∧
        s.start = 0 ∧ s.stop - s.start = 60 * 10 ∧
        s.rows = [row0].filter fun r =>
          s.start ≤ r.timestamp ∧ r.timestamp ≤ s.stop) :=
  C5_window_readiness [row0] 10 500 0 (by decide)

lemma accLoop_eq_zero (bands : List Band) (r : ℚ)
    (h : ∀ b ∈ bands, ¬ (b.range_inf ≤ r ∧ r < b.range_sup)) :
    accLoop bands r = 0 := by
  induction bands with
  | nil => rfl
  | cons b rest ih =>
    rw [accLoop, if_neg (h b (List.mem_cons_self b rest))]
    exact ih fun p hp => h p (List.mem_cons_of_mem b hp)

lemma accLoop_first_match (pre post : List Band) (b : Band) (r : ℚ)
    (hpre : ∀ p ∈ pre, ¬ (p.range_inf ≤ r ∧ r < p.range_sup))
    (h1 : b.range_inf ≤ r) (h2 : r < b.range_sup) :
    accLoop (pre ++ b :: post) r = b.value := by
  induction pre with
  | nil => rw [List.nil_append, accLoop, if_pos ⟨h1, h2⟩]
  | cons p rest ih =>
    rw [List.cons_append, accLoop, if_neg (hpre p (List.mem_cons_self p rest))]
    exact ih fun q hq => hpre q (List.mem_cons_of_mem p hq)

/-- **C7.**  Accuracy resolution: `0.0` for an unknown device (`None`),
`0.0` when the device lacks an accuracy table for the measure type, `0.0`
when no band's half-open interval `[range_inf, range_sup)` contains the
reading, and otherwise the `value` field of the (first) containing band;
on the spec's example device (`[0,10) -> 0.1`, `[10,20) -> 0.2`) the
readings 9.9, 15 and 25 resolve to 0.1, 0.2 and 0.0. -/
theorem C7_accuracy_resolution :
    (∀ (t : String) (r : ℚ), accuracy none t r = 0) ∧
    (∀ (dev : Device) (t : String) (r : ℚ),
      lookupType dev t = none → accuracy (some dev) t r = 0) ∧
    (∀ (dev : Device) (t : String) (r : ℚ) (bands : List Band),
      lookupType dev t = some bands →
      (∀ b ∈ bands, ¬ (b.range_inf ≤ r ∧ r < b.range_sup)) →
      accuracy (some dev) t r = 0) ∧
    (∀ (dev : Device) (t : String) (r : ℚ) (pre post : List Band) (b : Band),
      lookupType dev t = some (pre ++ b :: post) →
      (∀ p ∈ pre, ¬ (p.range_inf ≤ r ∧ r < p.range_sup)) →
      b.range_inf ≤ r → r < b.range_sup →
      accuracy (some dev) t r = b.value) ∧
    (accuracy (some exampleDevice) "temperature" (99/10) = 1/10 ∧
      accuracy (some exampleDevice) "temperature" 15 = 2/10 ∧
      accuracy (some exampleDevice) "temperature" 25 = 0) := by
  have hbands : ∀ r : ℚ, accuracy (some exampleDevice) "temperature" r
      = accLoop [⟨0, 10, 1/10⟩, ⟨10, 20, 2/10⟩] r := fun r => rfl
  refine ⟨fun t r => rfl, ?_, ?_, ?_, ?_, ?_, ?_⟩
  · intro dev t r hl
    simp [accuracy, hl]
  · intro dev t r bands hl hno
    simp [accuracy, hl, accLoop_eq_zero bands r hno]
  · intro dev t r pre post b hl hpre h1 h2
    simp [accuracy, hl, accLoop_first_match pre post b r hpre h1 h2]
  · rw [hbands, accLoop, if_pos (by norm_num)]
  · rw [hbands, accLoop, if_neg (by norm_num), accLoop, if_pos (by norm_num)]
  · rw [hbands, accLoop, if_neg (by norm_num), accLoop, if_neg (by norm_num)]
    rfl

/-- **C7 witness.**  The first-match case applied to the example device at
reading 15: the first band `[0,10)` does not contain 15, the second does,
and the resolved accuracy is its value 0.2. -/
theorem C7_accuracy_resolution_witness :
    accuracy (some exampleDevice) "temperature" 15 = 2/10 :=
  C7_accuracy_resolution.2.2.2.1 exampleDevice "temperature" 15
    [⟨0, 10, 1/10⟩] [] ⟨10, 20, 2/10⟩ rfl (by norm_num)
    (by norm_num) (by norm_num)

/-- **C1 (failing-input evaluation).**  A migration cycle whose cold-store
insert fails (`behInsertFail`) is NOT aborted: the `except` on line 375
only logs, execution falls through, both source samples `"a"` and `"b"`
are deleted from the hot store, and `archive_series` returns `True` — the
window is not retried on the next Engine cycle, even though the
consolidated record was never persisted. -/
theorem C1_insert_failure_still_deletes :
    archive_series [row0, row1] devDb0 "t" 10 700 behInsertFail
      = .returnedTrue false ["a", "b"] := by
  decide

/-- **C2 (failing-input evaluation).**  A one-sample window is neither
avoided nor special-cased: `process_series` calls `statistics.stdev` on a
single value, which raises `StatisticsError`, so no record is produced for
any single-sample slot; and a hot store holding exactly one sample does
reach that code — `get_measures_slot` returns the one-row slot once the
window has elapsed, and the exception escapes `archive_series`. -/
theorem C2_single_sample_fails :
    (∀ (devDb : String → Option Device) (topic : String) (r : Row),
      process_series devDb topic [r] = none) ∧
    archive_series [row0] devDb0 "t" 10 700 behOk = .raised false [] := by
  constructor
  · intro devDb topic r
    simp [process_series, extFoldOpt, pymin, pymax, pymean, pystdev_var,
      Option.bind]
  · decide

/-- **C6 (failing-input evaluation).**  The deletion loop has no per-id
exception handling: when deleting the first sample `"a"` fails
(`behRemoveFailA`), the exception escapes `archive_series` mid-loop and
the remaining sample `"b"` is never deleted (deleted list `[]`). -/
theorem C6_delete_failure_aborts_rest :
    archive_series [row0, row1] devDb0 "t" 10 700 behRemoveFailA
      = .raised true [] := by
  decide

/-! ### Workhorse lemmas for `process_series` -/

lemma extFoldOpt_some (upd : ℚ → ℚ → Bool) (l : List Row) :
    ∀ acc : ℚ × Int, extFoldOpt upd (some acc) l = some (extFold upd acc l) := by
  induction l with
  | nil => intro acc; rfl
  | cons r rest ih => intro acc; rw [extFoldOpt, extFold, ih]

lemma usum_foldl (l : List (ℚ × ℚ)) :
    ∀ acc : ℚ × ℚ, l.foldl uadd acc =
      (acc.1 + (l.map Prod.fst).sum, acc.2 + (l.map Prod.snd).sum) := by
  induction l with
  | nil => intro acc; simp [List.foldl]
  | cons x xs ih =>
    intro acc
    rw [List.foldl, ih]
    simp [uadd]
    constructor <;> ring

lemma usum_eq (l : List (ℚ × ℚ)) :
    usum l = ((l.map Prod.fst).sum, (l.map Prod.snd).sum) := by
  rw [usum, usum_foldl]
  simp

/-- `process_series` on a slot of at least two samples: the explicit
record it produces. -/
lemma process_series_cons2 (devDb : String → Option Device) (topic : String)
    (r0 r1 : Row) (rest : List Row) :
    process_series devDb topic (r0 :: r1 :: rest) =
      some
        { topic := topic
          measure_type := r0.mtype
          value_type := "average"
          timestamp :=
            ((r1 :: rest).map fun r => r.timestamp).foldl min r0.timestamp +
              (((r1 :: rest).map fun r => r.timestamp).foldl max r0.timestamp -
                ((r1 :: rest).map fun r => r.timestamp).foldl min r0.timestamp) / 2
          value :=
            (usum ((r0 :: r1 :: rest).map fun r =>
              ufloat r.value (accuracy (devDb r.dev) r0.mtype r.value))).1 /
              (((r0 :: r1 :: rest).map fun r =>
                ufloat r.value (accuracy (devDb r.dev) r0.mtype r.value)).length : ℚ)
          accuracy_var :=
            (usum ((r0 :: r1 :: rest).map fun r =>
              ufloat r.value (accuracy (devDb r.dev) r0.mtype r.value))).2 /
              (((r0 :: r1 :: rest).map fun r =>
                ufloat r.value (accuracy (devDb r.dev) r0.mtype r.value)).length : ℚ) ^ 2
          min_value :=
            ⟨(extFold minUpd (r0.value, r0.timestamp) (r1 :: rest)).1,
              (extFold minUpd (r0.value, r0.timestamp) (r1 :: rest)).2⟩
          max_value :=
            ⟨(extFold maxUpd (r0.value, r0.timestamp) (r1 :: rest)).1,
              (extFold maxUpd (r0.value, r0.timestamp) (r1 :: rest)).2⟩
          time_slot :=
            ⟨((r1 :: rest).map fun r => r.timestamp).foldl min r0.timestamp,
              ((r1 :: rest).map fun r => r.timestamp).foldl max r0.timestamp⟩
          id := topic ++ "@" ++
            toString
              (((r1 :: rest).map fun r => r.timestamp).foldl min r0.timestamp +
                (((r1 :: rest).map fun r => r.timestamp).foldl max r0.timestamp -
                  ((r1 :: rest).map fun r => r.timestamp).foldl min r0.timestamp) / 2) } := by
  have hstdev : ∀ (a b : ℚ) (l : List ℚ), pystdev_var (a :: b :: l) =
      some ((((a :: b :: l)).map fun x =>
          (x - (a :: b :: l).sum / (((a :: b :: l).length : ℕ) : ℚ)) ^ 2).sum /
        ((((a :: b :: l).length : ℕ) : ℚ) - 1)) := by
    intro a b l
    rw [pystdev_var, if_neg (by simp)]
  simp only [process_series, extFoldOpt, extFoldOpt_some, List.head?,
    List.map_cons, pymin, pymax, pymean, hstdev, Option.bind_eq_bind,
    Option.some_bind, extFold, udiv]

lemma sum_sq_nonneg (l : List ℚ) : 0 ≤ (l.map fun a => a ^ 2).sum := by
  apply List.sum_nonneg
  intro x hx
  obtain ⟨a, _, rfl⟩ := List.mem_map.mp hx
  positivity

/-- The concrete record computed by `process_series` on the two-sample
store `[row0, row1]` with every device unknown. -/
lemma process_series_eval :
    process_series devDb0 "t" (row0 :: row1 :: []) = some exMeas := by
  rw [process_series_cons2]
  simp only [Option.some.injEq]
  simp [exMeas, row0, row1, devDb0, usum_eq, ufloat, udiv, extFold, minUpd,
    maxUpd, accuracy]
  norm_num
  rfl

/-- **C3.**  For every slot successfully aggregated (n ≥ 2 samples), the
stored `value` is the mean of the uncertain sample values — equal to the
arithmetic mean of the measured values, since linear propagation of
`sum(ufloat(v_i, a_i)) / n` leaves the nominal part untouched — and the
stored `accuracy` is `sqrt(sum(a_i^2)) / n`, the propagated standard
deviation of that mean (`accuracy_var` is its exact square).  The `Meas`
record carries no field for the raw sample standard deviation computed by
`statistics.stdev`, which `process_series` only logs. -/
theorem C3_weighted_mean_and_propagated_accuracy
    (devDb : String → Option Device) (topic : String)
    (r0 r1 : Row) (rest : List Row) (m : Meas)
    (h : process_series devDb topic (r0 :: r1 :: rest) = some m) :
    m.value = ((r0 :: r1 :: rest).map fun r => r.value).sum /
      (((r0 :: r1 :: rest).length : ℕ) : ℚ) ∧
    m.accuracy_var = (((r0 :: r1 :: rest).map fun r =>
        accuracy (devDb r.dev) r0.mtype r.value).map fun a => a ^ 2).sum /
      (((r0 :: r1 :: rest).length : ℕ) : ℚ) ^ 2 ∧
    Real.sqrt (m.accuracy_var : ℝ) =
      Real.sqrt (((((r0 :: r1 :: rest).map fun r =>
        accuracy (devDb r.dev) r0.mtype r.value).map fun a => a ^ 2).sum : ℚ) : ℝ) /
      (((r0 :: r1 :: rest).length : ℕ) : ℝ) := by
  rw [process_series_cons2] at h
  have hm := (Option.some.inj h).symm
  subst hm
  have hval : (((r0 :: r1 :: rest).map fun r =>
      ufloat r.value (accuracy (devDb r.dev) r0.mtype r.value)).map Prod.fst)
      = (r0 :: r1 :: rest).map fun r => r.value := by
    rw [List.map_map]
    rfl
  have hvar : (((r0 :: r1 :: rest).map fun r =>
      ufloat r.value (accuracy (devDb r.dev) r0.mtype r.value)).map Prod.snd)
      = ((r0 :: r1 :: rest).map fun r =>
          accuracy (devDb r.dev) r0.mtype r.value).map fun a => a ^ 2 := by
    rw [List.map_map, List.map_map]
    rfl
  refine ⟨?_, ?_, ?_⟩
  · simp only [usum_eq, hval, List.length_map]
  · simp only [usum_eq, hvar, List.length_map]
  · simp only [usum_eq, hvar, List.length_map]
    have hS : (0 : ℝ) ≤ ((((r0 :: r1 :: rest).map fun r =>
        accuracy (devDb r.dev) r0.mtype r.value).map fun a => a ^ 2).sum : ℚ) := by
      exact_mod_cast sum_sq_nonneg _
    rw [Rat.cast_div, Rat.cast_pow, Real.sqrt_div hS,
      Real.sqrt_sq (by positivity)]
    norm_cast

/-- **C3 witness.**  The theorem applied to the concrete two-sample slot
`[row0, row1]` with every device unknown. -/
theorem C3_witness :
    exMeas.value = ((row0 :: row1 :: []).map fun r => r.value).sum /
      (((row0 :: row1 :: ([] : List Row)).length : ℕ) : ℚ) ∧
    exMeas.accuracy_var = (((row0 :: row1 :: []).map fun r =>
        accuracy (devDb0 r.dev) row0.mtype r.value).map fun a => a ^ 2).sum /
      (((row0 :: row1 :: ([] : List Row)).length : ℕ) : ℚ) ^ 2 ∧
    Real.sqrt (exMeas.accuracy_var : ℝ) =
      Real.sqrt (((((row0 :: row1 :: []).map fun r =>
        accuracy (devDb0 r.dev) row0.mtype r.value).map fun a => a ^ 2).sum : ℚ) : ℝ) /
      (((row0 :: row1 :: ([] : List Row)).length : ℕ) : ℝ) :=
  C3_weighted_mean_and_propagated_accuracy devDb0 "t" row0 row1 [] exMeas
    process_series_eval

/-- Characterization of the seeded running-extreme loop: either no element
triggers an update (the seed survives and no element beats it), or the
result is the first element that beats the seed and every later candidate,
with nothing after it beating it. -/
lemma extFold_spec (upd : ℚ → ℚ → Bool)
    (htrans : ∀ a b c, upd a b = true → upd b c = true → upd a c = true)
    (hcross : ∀ a b c, upd a b = true → upd c b = false → upd a c = true) :
    ∀ (l : List Row) (mv : ℚ) (mt : Int),
      (extFold upd (mv, mt) l = (mv, mt) ∧ ∀ q ∈ l, upd q.value mv = false) ∨
      (∃ pre q post, l = pre ++ q :: post ∧
        extFold upd (mv, mt) l = (q.value, q.timestamp) ∧
        upd q.value mv = true ∧
        (∀ p ∈ pre, upd q.value p.value = true) ∧
        (∀ p ∈ post, upd p.value q.value = false)) := by
  intro l
  induction l with
  | nil => intro mv mt; left; exact ⟨rfl, by simp⟩
  | cons r rest ih =>
    intro mv mt
    cases hr : upd r.value mv with
    | true =>
      have hfold : extFold upd (mv, mt) (r :: rest)
          = extFold upd (r.value, r.timestamp) rest := by
        show extFold upd
          (if upd r.value mv then (r.value, r.timestamp) else (mv, mt)) rest
          = extFold upd (r.value, r.timestamp) rest
        rw [if_pos hr]
      rcases ih r.value r.timestamp with ⟨heq, hall⟩ |
        ⟨pre, q, post, hl, heq, hq, hpre, hpost⟩
      · exact Or.inr ⟨[], r, rest, rfl, by rw [hfold, heq], hr, by simp, hall⟩
      · refine Or.inr ⟨r :: pre, q, post, by rw [hl, List.cons_append], by rw [hfold, heq],
          htrans _ _ _ hq hr, ?_, hpost⟩
        intro p hp
        rcases List.mem_cons.mp hp with rfl | hp'
        · exact hq
        · exact hpre p hp'
    | false =>
      have hfold : extFold upd (mv, mt) (r :: rest)
          = extFold upd (mv, mt) rest := by
        show extFold upd
          (if upd r.value mv then (r.value, r.timestamp) else (mv, mt)) rest
          = extFold upd (mv, mt) rest
        rw [if_neg (by simp [hr])]
      rcases ih mv mt with ⟨heq, hall⟩ |
        ⟨pre, q, post, hl, heq, hq, hpre, hpost⟩
      · refine Or.inl ⟨by rw [hfold, heq], ?_⟩
        intro p hp
        rcases List.mem_cons.mp hp with rfl | hp'
        · exact hr
        · exact hall p hp'
      · refine Or.inr ⟨r :: pre, q, post, by rw [hl, List.cons_append], by rw [hfold, heq],
          hq, ?_, hpost⟩
        intro p hp
        rcases List.mem_cons.mp hp with rfl | hp'
        · exact hcross _ _ _ hq hr
        · exact hpre p hp'

/-- The running minimum is the first sample attaining the least value. -/
lemma minFold_first_min (r0 : Row) (rest : List Row) :
    ∃ pre q post, r0 :: rest = pre ++ q :: post ∧
      extFold minUpd (r0.value, r0.timestamp) rest = (q.value, q.timestamp) ∧
      (∀ p ∈ pre, q.value < p.value) ∧
      (∀ p ∈ r0 :: rest, q.value ≤ p.value) := by
  have htrans : ∀ a b c : ℚ,
      minUpd a b = true → minUpd b c = true → minUpd a c = true := by
    intro a b c h1 h2
    simp only [minUpd, decide_eq_true_eq] at *
    exact h1.trans h2
  have hcross : ∀ a b c : ℚ,
      minUpd a b = true → minUpd c b = false → minUpd a c = true := by
    intro a b c h1 h2
    simp only [minUpd, decide_eq_true_eq, decide_eq_false_iff_not,
      not_lt] at *
    exact lt_of_lt_of_le h1 h2
  rcases extFold_spec minUpd htrans hcross rest r0.value r0.timestamp with
    ⟨heq, hall⟩ | ⟨pre, q, post, hl, heq, hq, hpre, hpost⟩
  · refine ⟨[], r0, rest, rfl, heq, by simp, ?_⟩
    intro p hp
    rcases List.mem_cons.mp hp with rfl | hp'
    · exact le_refl _
    · have := hall p hp'
      simp only [minUpd, decide_eq_false_iff_not, not_lt] at this
      exact this
  · have hqlt : q.value < r0.value := by
      have := hq
      simp only [minUpd, decide_eq_true_eq] at this
      exact this
    refine ⟨r0 :: pre, q, post, by rw [hl, List.cons_append], heq, ?_, ?_⟩
    · intro p hp
      rcases List.mem_cons.mp hp with rfl | hp'
      · exact hqlt
      · have := hpre p hp'
        simp only [minUpd, decide_eq_true_eq] at this
        exact this
    · intro p hp
      rcases List.mem_cons.mp hp with rfl | hp'
      · exact hqlt.le
      · rw [hl] at hp'
        rcases List.mem_append.mp hp' with hpp | hqq
        · have := hpre p hpp
          simp only [minUpd, decide_eq_true_eq] at this
          exact this.le
        · rcases List.mem_cons.mp hqq with rfl | hks
          · exact le_refl _
          · have := hpost p hks
            simp only [minUpd, decide_eq_false_iff_not, not_lt] at this
            exact this

/-- The running maximum is the first sample attaining the greatest
value. -/
lemma maxFold_first_max (r0 : Row) (rest : List Row) :
    ∃ pre q post, r0 :: rest = pre ++ q :: post ∧
      extFold maxUpd (r0.value, r0.timestamp) rest = (q.value, q.timestamp) ∧
      (∀ p ∈ pre, p.value < q.value) ∧
      (∀ p ∈ r0 :: rest, p.value ≤ q.value) := by
  have htrans : ∀ a b c : ℚ,
      maxUpd a b = true → maxUpd b c = true → maxUpd a c = true := by
    intro a b c h1 h2
    simp only [maxUpd, decide_eq_true_eq] at *
    exact h2.trans h1
  have hcross : ∀ a b c : ℚ,
      maxUpd a b = true → maxUpd c b = false → maxUpd a c = true := by
    intro a b c h1 h2
    simp only [maxUpd, decide_eq_true_eq, decide_eq_false_iff_not,
      not_lt] at *
    exact lt_of_le_of_lt h2 h1
  rcases extFold_spec maxUpd htrans hcross rest r0.value r0.timestamp with
    ⟨heq, hall⟩ | ⟨pre, q, post, hl, heq, hq, hpre, hpost⟩
  · refine ⟨[], r0, rest, rfl, heq, by simp, ?_⟩
    intro p hp
    rcases List.mem_cons.mp hp with rfl | hp'
    · exact le_refl _
    · have := hall p hp'
      simp only [maxUpd, decide_eq_false_iff_not, not_lt] at this
      exact this
  · have hqgt : r0.value < q.value := by
      have := hq
      simp only [maxUpd, decide_eq_true_eq] at this
      exact this
    refine ⟨r0 :: pre, q, post, by rw [hl, List.cons_append], heq, ?_, ?_⟩
    · intro p hp
      rcases List.mem_cons.mp hp with rfl | hp'
      · exact hqgt
      · have := hpre p hp'
        simp only [maxUpd, decide_eq_true_eq] at this
        exact this
    · intro p hp
      rcases List.mem_cons.mp hp with rfl | hp'
      · exact hqgt.le
      · rw [hl] at hp'
        rcases List.mem_append.mp hp' with hpp | hqq
        · have := hpre p hpp
          simp only [maxUpd, decide_eq_true_eq] at this
          exact this.le
        · rcases List.mem_cons.mp hqq with rfl | hks
          · exact le_refl _
          · have := hpost p hks
            simp only [maxUpd, decide_eq_false_iff_not, not_lt] at this
            exact this

/-- **C8.**  For every slot successfully aggregated, the reported
`min_value` (`max_value`) carries the value and timestamp of the FIRST
sample attaining the minimum (maximum) — the update tests are strict, so a
later sample equal to the current extreme does not replace it — and every
sample's value lies between `min_value.value` and `max_value.value`. -/
theorem C8_first_extremes_and_bounds
    (devDb : String → Option Device) (topic : String)
    (r0 r1 : Row) (rest : List Row) (m : Meas)
    (h : process_series devDb topic (r0 :: r1 :: rest) = some m) :
    (∃ pre q post, r0 :: r1 :: rest = pre ++ q :: post ∧
      m.min_value = ⟨q.value, q.timestamp⟩ ∧
      (∀ p ∈ pre, q.value < p.value) ∧
      (∀ p ∈ r0 :: r1 :: rest, q.value ≤ p.value)) ∧
    (∃ pre q post, r0 :: r1 :: rest = pre ++ q :: post ∧
      m.max_value = ⟨q.value, q.timestamp⟩ ∧
      (∀ p ∈ pre, p.value < q.value) ∧
      (∀ p ∈ r0 :: r1 :: rest, p.value ≤ q.value)) ∧
    (∀ p ∈ r0 :: r1 :: rest,
      m.min_value.value ≤ p.value ∧ p.value ≤ m.max_value.value) := by
  rw [process_series_cons2] at h
  have hm := (Option.some.inj h).symm
  subst hm
  obtain ⟨pre1, q1, post1, hl1, heq1, hpre1, hall1⟩ :=
    minFold_first_min r0 (r1 :: rest)
  obtain ⟨pre2, q2, post2, hl2, heq2, hpre2, hall2⟩ :=
    maxFold_first_max r0 (r1 :: rest)
  refine ⟨⟨pre1, q1, post1, hl1, by simp [heq1], hpre1, hall1⟩,
    ⟨pre2, q2, post2, hl2, by simp [heq2], hpre2, hall2⟩, ?_⟩
  intro p hp
  constructor
  · simpa [heq1] using hall1 p hp
  · simpa [heq2] using hall2 p hp

/-- **C8 witness.**  The theorem applied to the concrete two-sample slot
`[row0, row1]`. -/
theorem C8_witness :
    (∃ pre q post, row0 :: row1 :: ([] : List Row) = pre ++ q :: post ∧
      exMeas.min_value = ⟨q.value, q.timestamp⟩ ∧
      (∀ p ∈ pre, q.value < p.value) ∧
      (∀ p ∈ row0 :: row1 :: ([] : List Row), q.value ≤ p.value)) ∧
    (∃ pre q post, row0 :: row1 :: ([] : List Row) = pre ++ q :: post ∧
      exMeas.max_value = ⟨q.value, q.timestamp⟩ ∧
      (∀ p ∈ pre, p.value < q.value) ∧
      (∀ p ∈ row0 :: row1 :: ([] : List Row), p.value ≤ q.value)) ∧
    (∀ p ∈ row0 :: row1 :: ([] : List Row),
      exMeas.min_value.value ≤ p.value ∧ p.value ≤ exMeas.max_value.value) :=
  C8_first_extremes_and_bounds devDb0 "t" row0 row1 [] exMeas
    process_series_eval

end DSArchiver
